import Mathlib

/-!
Shallow embedding of the AutoTableTurf core (tableturf/model/card.py,
tableturf/model/stage.py, tableturf/manager/detection/card.py,
tableturf/manager/tableturf.py) and proofs about its specified behaviour.

Grids (numpy 2-D arrays of cell values) are embedded as lists of rows;
rectangularity is an explicit side condition.  Python code that can raise
is embedded as an `Option`-returning function, `none` marking the raise.
-/

set_option maxRecDepth 40000

namespace AutoTableTurf

/-- Modelled from the spec: the CellState enumeration (tableturf/model/grid.py,
which is not among the provided sources): Empty, Wall, MyInk, MySpecial,
HisInk, HisSpecial.  Compared by value, never mutated. -/
inductive Grid where
  | Empty
  | Wall
  | MyInk
  | MySpecial
  | HisInk
  | HisSpecial
deriving DecidableEq, Repr, Inhabited

/-- A 2-D cell matrix: a list of rows (the embedding of a numpy array of
cell values). -/
abbrev Mat := List (List Grid)

/-- Number of columns of a matrix (the length of its first row; for the
rectangular arrays numpy produces this is the common row length). -/
def width (g : Mat) : Nat := (g.headD []).length

/-- Rectangularity: every row has the common width.  numpy 2-D arrays are
rectangular by construction, so theorems take this as a hypothesis. -/
def isRect (g : Mat) : Bool := g.all (fun r => r.length == width g)

/-- Cell lookup at a (row, col) index pair, as numpy integer indexing on an
in-bounds index (out-of-bounds reads default to Empty; the embedded code
only reads in-bounds indexes). -/
def cellAt (g : Mat) (q : Int × Int) : Grid :=
  (g.getD q.1.toNat []).getD q.2.toNat Grid.Empty

/-- Row mask entry of card.py line 15 (`np.any(inks, axis=1)`): the row
holds some non-Empty cell. -/
def rowKeep (r : List Grid) : Bool := r.any (fun c => c != Grid.Empty)

/-- Column mask entry of card.py line 16 (`np.any(inks, axis=0)`): column
`j` holds some non-Empty cell. -/
def colKeep (g : Mat) (j : Nat) : Bool :=
  g.any (fun r => r.getD j Grid.Empty != Grid.Empty)

/-- Column mask of card.py line 16 as a list over all column indexes. -/
def colMask (g : Mat) : List Bool := (List.range (width g)).map (colKeep g)

/-- Boolean-mask column selection (`arr[:, col_mask]` applied to one row):
keep the entries of `r` at positions where `mask` is true. -/
def selectCols (mask : List Bool) (r : List Grid) : List Grid :=
  (mask.zip r).filterMap (fun p => if p.1 then some p.2 else none)

/-- Trimming of card.py line 17 (`grid[row_mask][:, col_mask]`): drop every
all-Empty row and every all-Empty column. -/
def trim (g : Mat) : Mat := (g.filter rowKeep).map (selectCols (colMask g))

/-- Predicate of card.py line 22: a cell that counts as a pattern square
(MyInk or MySpecial). -/
def isInk (c : Grid) : Bool := c == Grid.MyInk || c == Grid.MySpecial

/-- Row-major coordinates of the cells satisfying `p` (`np.argwhere`). -/
def argwhere (g : Mat) (p : Grid → Bool) : List (Int × Int) :=
  (List.range g.length).flatMap (fun i =>
    (List.range ((g.getD i []).length)).filterMap (fun j =>
      if p ((g.getD i []).getD j Grid.Empty) then some ((i : Int), (j : Int)) else none))

/-- An immutable trimmed pattern: the trimmed grid together with the
precomputed squares, offsets and size of card.py lines 22-25. -/
structure Pattern where
  grid : Mat
  squares : List Grid
  offsets : List (Int × Int)
  size : Nat
deriving DecidableEq, Repr

/-- Pattern construction (card.py lines 8-25).  Returns `none` exactly where
the Python code raises: `indexes - indexes[0]` (line 24) fails with an
IndexError when `np.argwhere` found no MyInk/MySpecial square. -/
def Pattern.init (g : Mat) : Option Pattern :=
  match argwhere (trim g) isInk with
  | [] => none
  | i0 :: rest =>
    some { grid := trim g
           squares := (i0 :: rest).map (fun q => cellAt (trim g) q)
           offsets := (i0 :: rest).map (fun q => (q.1 - i0.1, q.2 - i0.2))
           size := (i0 :: rest).length }

/-- Warning condition of card.py lines 18-19: `np.minimum(*shape) > 8` on the
shape of the trimmed grid, i.e. the smaller of the two dimensions exceeds 8. -/
def patternWarn (g : Mat) : Bool :=
  decide (8 < min (trim g).length (width (trim g)))

/-- Column `j` of a matrix, top to bottom. -/
def colOf (g : Mat) (j : Nat) : List Grid := g.map (fun r => r.getD j Grid.Empty)

/-- Counterclockwise quarter-turn (`np.rot90(g, 1)`): row `i` of the result
is column `width g - 1 - i` of `g`. -/
def rot90 (g : Mat) : Mat := ((List.range (width g)).reverse).map (colOf g)

/-- Iterated counterclockwise quarter-turns (`np.rot90(g, k)`). -/
def rot90k : Nat → Mat → Mat
  | 0, g => g
  | k + 1, g => rot90 (rot90k k g)

/-- Pattern.rotate (card.py lines 55-56): construct a new Pattern from the
rotated trimmed grid. -/
def Pattern.rotate (p : Pattern) (k : Nat) : Option Pattern :=
  Pattern.init (rot90k k p.grid)

/-- Pattern equality (card.py lines 61-64): offsets and squares only. -/
def patternEq (p q : Pattern) : Bool :=
  decide (p.offsets = q.offsets ∧ p.squares = q.squares)

/-- Truth of `patternEq` across an optional pattern; false when the
construction failed. -/
def optPatternEq (o : Option Pattern) (p : Pattern) : Bool :=
  match o with
  | none => false
  | some q => patternEq q p

/-- A card: the four precomputed rotations of one pattern plus the special
attack cost (card.py lines 81-90). -/
structure Card where
  pat0 : Pattern
  pat1 : Pattern
  pat2 : Pattern
  pat3 : Pattern
  spCost : Nat
deriving DecidableEq, Repr

/-- Card construction (card.py line 89): `[Pattern(np.rot90(grid, i)) for i in
range(4)]`; fails when any Pattern construction fails. -/
def Card.init (g : Mat) (c : Nat) : Option Card :=
  match Pattern.init (rot90k 0 g), Pattern.init (rot90k 1 g),
      Pattern.init (rot90k 2 g), Pattern.init (rot90k 3 g) with
  | some p0, some p1, some p2, some p3 =>
    some { pat0 := p0, pat1 := p1, pat2 := p2, pat3 := p3, spCost := c }
  | _, _, _, _ => none

/-- Card equality (card.py lines 117-120): rotation-0 patterns only; the
cost field is not consulted. -/
def cardEq (a b : Card) : Bool := patternEq a.pat0 b.pat0

/-- The eight neighbourhood offsets of stage.py lines 7-16. -/
def nbOffsets : List (Int × Int) :=
  [(-1, -1), (-1, 0), (-1, 1), (0, -1), (0, 1), (1, -1), (1, 0), (1, 1)]

/-- Bounds test of stage.py lines 33-37 for a single index pair. -/
def inBounds (g : Mat) (q : Int × Int) : Bool :=
  decide (0 ≤ q.1 ∧ q.1 < (g.length : Int) ∧ 0 ≤ q.2 ∧ q.2 < (width g : Int))

/-- within_grid (stage.py lines 33-37): keep the in-bounds index pairs. -/
def withinGrid (g : Mat) (qs : List (Int × Int)) : List (Int × Int) :=
  qs.filter (inBounds g)

/-- is_fiery (stage.py lines 39-42): every in-bounds 8-neighbour of the cell
is non-Empty. -/
def isFiery (g : Mat) (q : Int × Int) : Bool :=
  (withinGrid g (nbOffsets.map (fun o => (q.1 + o.1, q.2 + o.2)))).all
    (fun r => cellAt g r != Grid.Empty)

/-- split_sp (stage.py lines 44-48): split the special-cell coordinates into
the fiery ones and the rest, preserving order. -/
def splitSp (g : Mat) (sp : List (Int × Int)) : List (Int × Int) × List (Int × Int) :=
  (sp.filter (isFiery g), sp.filter (fun q => !(isFiery g q)))

/-- my special-cell coordinates (stage.py line 70). -/
def mySp (g : Mat) : List (Int × Int) := argwhere g (fun c => c == Grid.MySpecial)

/-- opponent special-cell coordinates (stage.py line 76). -/
def hisSp (g : Mat) : List (Int × Int) := argwhere g (fun c => c == Grid.HisSpecial)

/-- Loop body of TableTurfManager.__multi_detect (tableturf.py lines 59-74).
`s k` is the sample returned by the k-th call of the wrapped detector,
`eq` the pluggable equality of __equal (element-wise for arrays), `prev` the
previous sample (always `s (k-1)`), `fuel` the remaining loop iterations.
Returns the chosen sample together with the total number of polls made. -/
def multiDetectGo {α : Type} (eq : α → α → Bool) (s : Nat → α) :
    α → Nat → Nat → α × Nat
  | prev, 0, k => (prev, k)
  | prev, fuel + 1, k =>
    let cur := s k
    if eq cur prev then (cur, k + 1) else multiDetectGo eq s cur fuel (k + 1)

/-- The stabilizing detection combinator (tableturf.py lines 59-74): poll
until two consecutive samples agree, with at most `maxLoop` retries; on
exhaustion return the last sample (after a non-fatal warning). -/
def multiDetect {α : Type} (eq : α → α → Bool) (s : Nat → α) (maxLoop : Nat) : α × Nat :=
  multiDetectGo eq s (s 0) maxLoop 1

/-- The sample sequence 1, 2, 2, 3 (then constantly 0). -/
def seq1223 (n : Nat) : Nat := [1, 2, 2, 3].getD n 0

/-- An HSV pixel, as produced by cv2.cvtColor: (hue, saturation, value). -/
abbrev Pixel := Nat × Nat × Nat

/-- A calibrated HSV colour band: lower and upper bound triples. -/
abbrev Band := Pixel × Pixel

/-- cv2.inRange on a single pixel: each channel lies between the band's
lower and upper bound. -/
def inBand (b : Band) (p : Pixel) : Bool :=
  decide (b.1.1 ≤ p.1 ∧ p.1 ≤ b.2.1 ∧ b.1.2.1 ≤ p.2.1 ∧ p.2.1 ≤ b.2.2.1 ∧
    b.1.2.2 ≤ p.2.2 ∧ p.2.2 ≤ b.2.2.2)

/-- MY_INK_LIGHTER HSV band (detection/card.py lines 46-47). -/
def myInkLighter : Band := ((30, 100, 150), (35, 255, 255))

/-- MY_SPECIAL_LIGHTER HSV band (detection/card.py lines 48-49). -/
def mySpecialLighter : Band := ((20, 100, 150), (25, 255, 255))

/-- MY_INK_DARKER HSV band (detection/card.py lines 50-51). -/
def myInkDarker : Band := ((27, 100, 100), (35, 255, 140))

/-- MY_SPECIAL_DARKER HSV band (detection/card.py lines 52-53). -/
def mySpecialDarker : Band := ((15, 100, 100), (27, 255, 140))

/-- The fixed classification threshold GRID_PIXEL_RATIO = 0.3
(detection/card.py line 54). -/
def gridPixelFrac : ℚ := 3 / 10

/-- Match fraction of __grid_ratios (detection/card.py lines 58-62): the
fraction of the 14 x 14 ROI pixels inside the band. -/
def matchFrac (roi : List Pixel) (b : Band) : ℚ := (roi.countP (inBand b) : ℚ) / (14 * 14)

/-- numpy boolean-mask assignment `cells[mask] = v` over a flat cell list. -/
def assignMask (cells : List Grid) (mask : List Bool) (v : Grid) : List Grid :=
  List.zipWith (fun c b => if b then v else c) cells mask

/-- Per-ROI band mask: which ROIs exceed the threshold under band `b`. -/
def bandMask (rois : List (List Pixel)) (b : Band) : List Bool :=
  rois.map (fun roi => decide (gridPixelFrac < matchFrac roi b))

/-- Cell classification of hands (detection/card.py lines 83-87): start from
all Empty (np.zeros), then assign MyInk where the lighter ink band exceeds
the threshold, MySpecial where the lighter special band does, MyInk where
the darker ink band does, MySpecial where the darker special band does —
in that order, later assignments overwriting earlier ones. -/
def handsClassify (rois : List (List Pixel)) : List Grid :=
  let g0 := List.replicate rois.length Grid.Empty
  let g1 := assignMask g0 (bandMask rois myInkLighter) Grid.MyInk
  let g2 := assignMask g1 (bandMask rois mySpecialLighter) Grid.MySpecial
  let g3 := assignMask g2 (bandMask rois myInkDarker) Grid.MyInk
  assignMask g3 (bandMask rois mySpecialDarker) Grid.MySpecial

/-- The classification a ROI receives when the four bands are consulted in
the reverse order (darker special, darker ink, lighter special, lighter
ink), first match winning: the closed form of the last-write-wins
assignments of detection/card.py lines 83-87. -/
def lastBandClass (roi : List Pixel) : Grid :=
  if gridPixelFrac < matchFrac roi mySpecialDarker then Grid.MySpecial
  else if gridPixelFrac < matchFrac roi myInkDarker then Grid.MyInk
  else if gridPixelFrac < matchFrac roi mySpecialLighter then Grid.MySpecial
  else if gridPixelFrac < matchFrac roi myInkLighter then Grid.MyInk
  else Grid.Empty

/-- A 14 x 14 ROI whose pixels are 80 lighter-special hits, 80 darker-ink
hits and 36 black pixels: both a special band and an ink band exceed the
0.3 threshold on it. -/
def mixedRoi : List Pixel :=
  List.replicate 80 (22, 150, 200) ++ List.replicate 80 (30, 150, 120) ++
    List.replicate 36 (0, 0, 0)

/-- A 14 x 14 ROI filled with a lighter-ink colour. -/
def inkRoi : List Pixel := List.replicate 196 (32, 150, 200)

/-- Cursor-aware ROI-layout selection of hands (detection/card.py lines
64-70): a copy of the normal per-slot tables, with the focused table
substituted at the cursor slot when the cursor is in range 0..3. -/
def chooseRois {α : Type} (normal focus : Fin 4 → α) (cursor : Int) : Fin 4 → α :=
  if 0 ≤ cursor ∧ cursor < 4 then
    fun i => if (i.val : Int) = cursor then focus i else normal i
  else normal

/-- The hand detector seen from the cursor argument: everything after the
layout selection (ratio sampling, classification, card assembly) is the
continuation `process`, which depends on the cursor only through the
selected ROI tables (detection/card.py lines 71-131). -/
def handsWithCursor {α β : Type} (process : (Fin 4 → α) → β)
    (normal focus : Fin 4 → α) (cursor : Int) : β :=
  process (chooseRois normal focus cursor)

/-- Rotation-convergence loop of TableTurfManager.__move (tableturf.py lines
205-218).  Modelled from the spec for the parts outside the given sources:
`action.rotate_card_marco(n)` is represented by the quarter-turn count `n`
it performs, and the preview detection chain is abstracted as `detect`,
mapping the total number of quarter turns issued so far to the rotation
index read back (the code's argmax always lands in 0..3, hence the `% 4`).
Returns the issued macros (as their quarter-turn counts) and whether the
loop stopped within `fuel` iterations. -/
def rotateConverge (target : Nat) (detect : Nat → Nat) :
    Nat → Nat → List Nat × Bool
  | 0, _ => ([], false)
  | fuel + 1, issued =>
    let cur := detect issued % 4
    let steps := (target + 4 - cur) % 4
    if steps = 0 then ([], true)
    else
      let rest := rotateConverge target detect fuel (issued + steps)
      (steps :: rest.1, rest.2)

/-- Modelled from the spec for comparison with the trimming the code
performs: the minimal bounding box of the non-Empty cells of `g` — the
sub-rectangle spanned from the first to the last non-Empty row and from
the first to the last non-Empty column, all cells inside it preserved. -/
def specBoundingBox (g : Mat) : Mat :=
  let rIdx := (List.range g.length).filter (fun i => rowKeep (g.getD i []))
  let cIdx := (List.range (width g)).filter (colKeep g)
  let rlo := rIdx.headD 0
  let rhi := rIdx.getLastD 0
  let clo := cIdx.headD 0
  let chi := cIdx.getLastD 0
  if rIdx = [] then []
  else
    ((List.range g.length).filter (fun i => decide (rlo ≤ i ∧ i ≤ rhi))).map (fun i =>
      ((List.range (width g)).filter (fun j => decide (clo ≤ j ∧ j ≤ chi))).map (fun j =>
        (g.getD i []).getD j Grid.Empty))

/-- The pattern of the single-square MyInk card, as Pattern.init computes it. -/
def unitInkPattern : Pattern :=
  { grid := [[Grid.MyInk]], squares := [Grid.MyInk], offsets := [(0, 0)], size := 1 }

/-- A single-square card of special cost 1. -/
def cardCost1 : Card :=
  { pat0 := unitInkPattern, pat1 := unitInkPattern, pat2 := unitInkPattern,
    pat3 := unitInkPattern, spCost := 1 }

/-- A card of the same shape as `cardCost1` but special cost 5. -/
def cardCost5 : Card :=
  { pat0 := unitInkPattern, pat1 := unitInkPattern, pat2 := unitInkPattern,
    pat3 := unitInkPattern, spCost := 5 }

/-- A concrete 3-square L-shaped grid. -/
def lShapeGrid : Mat := [[Grid.MyInk, Grid.Empty], [Grid.MySpecial, Grid.MyInk]]

/-- The pattern `Pattern.init` computes for `lShapeGrid`. -/
def lShapePattern : Pattern :=
  { grid := lShapeGrid,
    squares := [Grid.MyInk, Grid.MySpecial, Grid.MyInk],
    offsets := [(0, 0), (1, 0), (1, 1)], size := 3 }

/-- A concrete 2x2 stage whose special cell at (0, 0) has all in-bounds
neighbours inked. -/
def fieryStage : Mat := [[Grid.MySpecial, Grid.MyInk], [Grid.MyInk, Grid.MyInk]]

/-- A 9x1 grid of ink: its trimmed height exceeds 8 but its width does not. -/
def nineTallGrid : Mat := List.replicate 9 [Grid.MyInk]

/-- A 9x9 all-ink grid: both trimmed dimensions exceed 8. -/
def bigInkGrid : Mat := List.replicate 9 (List.replicate 9 Grid.MyInk)

/-!
Theorems.  One main theorem per claim, with shared helper lemmas.
-/

/-- Claim C1.  The spec's contract says Pattern construction never fails, in
particular on an all-empty input, where it must produce a size-0 pattern
without index errors.  The code violates this: for an all-empty grid
`np.argwhere` is empty and `indexes - indexes[0]` (card.py line 24) raises
an IndexError, embedded here as `Pattern.init` returning `none`. -/
theorem C1_pattern_init_fails_on_all_empty :
    Pattern.init [[Grid.Empty]] = none ∧
    Pattern.init [[Grid.Empty, Grid.Empty], [Grid.Empty, Grid.Empty]] = none := by
  decide

/-- Helper: if the samples first repeat consecutively at index `i` (within the
budget), the polling loop returns sample `i` after `i + 1` polls. -/
theorem multiDetectGo_first_repeat {α : Type} (eq : α → α → Bool) (s : Nat → α) :
    ∀ (fuel k i : Nat), 1 ≤ k → k ≤ i → i < k + fuel →
      eq (s i) (s (i - 1)) = true →
      (∀ j, k ≤ j → j < i → eq (s j) (s (j - 1)) = false) →
      multiDetectGo eq s (s (k - 1)) fuel k = (s i, i + 1) := by
  intro fuel
  induction fuel with
  | zero =>
    intro k i h1 h2 h3 _ _
    omega
  | succ d ih =>
    intro k i h1 h2 h3 heq hno
    by_cases hk : k = i
    · subst hk
      simp only [multiDetectGo, heq, if_true]
    · have hlt : k < i := lt_of_le_of_ne h2 hk
      have hne : eq (s k) (s (k - 1)) = false := hno k le_rfl hlt
      simp only [multiDetectGo, hne, if_false, Bool.false_eq_true]
      have hrw : s k = s ((k + 1) - 1) := by norm_num
      rw [hrw]
      exact ih (k + 1) i (by omega) (by omega) (by omega) heq
        (fun j hj1 hj2 => hno j (by omega) hj2)

/-- Helper: if no two consecutive samples agree within the loop budget, the
polling loop runs out of fuel and returns the last sample. -/
theorem multiDetectGo_exhaust {α : Type} (eq : α → α → Bool) (s : Nat → α) :
    ∀ (fuel k : Nat), 1 ≤ k →
      (∀ j, k ≤ j → j < k + fuel → eq (s j) (s (j - 1)) = false) →
      multiDetectGo eq s (s (k - 1)) fuel k = (s (k + fuel - 1), k + fuel) := by
  intro fuel
  induction fuel with
  | zero =>
    intro k h1 _
    simp only [multiDetectGo, Nat.add_zero]
  | succ d ih =>
    intro k h1 hno
    have hne : eq (s k) (s (k - 1)) = false := hno k le_rfl (by omega)
    simp only [multiDetectGo, hne, if_false, Bool.false_eq_true]
    have hrw : s k = s ((k + 1) - 1) := by norm_num
    rw [hrw]
    have h := ih (k + 1) (by omega) (fun j hj1 hj2 => hno j (by omega) (by omega))
    rw [h]
    have e1 : k + 1 + d - 1 = k + (d + 1) - 1 := by omega
    have e2 : k + 1 + d = k + (d + 1) := by omega
    rw [e1, e2]

/-- Claim C5.  The stabilizing detection combinator returns the first sample
that equals its immediately preceding sample (with the pluggable comparator
standing for element-wise equality of composite samples); on the sequence
1, 2, 2, 3 it returns 2 after the third poll; and when no two consecutive
samples agree within the `maxLoop` budget it returns the last sampled value
(after `maxLoop + 1` polls) instead of raising. -/
theorem C5_stabilizing_detect :
    (∀ (α : Type) (eq : α → α → Bool) (s : Nat → α) (maxLoop i : Nat),
      1 ≤ i → i ≤ maxLoop → eq (s i) (s (i - 1)) = true →
      (∀ j, 1 ≤ j → j < i → eq (s j) (s (j - 1)) = false) →
      multiDetect eq s maxLoop = (s i, i + 1)) ∧
    multiDetect (fun a b => a == b) seq1223 100 = (2, 3) ∧
    (∀ (α : Type) (eq : α → α → Bool) (s : Nat → α) (maxLoop : Nat),
      (∀ j, 1 ≤ j → j ≤ maxLoop → eq (s j) (s (j - 1)) = false) →
      multiDetect eq s maxLoop = (s maxLoop, maxLoop + 1)) := by
  refine ⟨?_, by decide, ?_⟩
  · intro α eq s maxLoop i h1 h2 heq hno
    unfold multiDetect
    have hrw : s 0 = s (1 - 1) := by norm_num
    rw [hrw]
    exact multiDetectGo_first_repeat eq s maxLoop 1 i le_rfl h1 (by omega) heq
      (fun j hj1 hj2 => hno j hj1 hj2)
  · intro α eq s maxLoop hno
    unfold multiDetect
    have hrw : s 0 = s (1 - 1) := by norm_num
    rw [hrw]
    have h := multiDetectGo_exhaust eq s maxLoop 1 le_rfl
      (fun j hj1 hj2 => hno j hj1 (by omega))
    rw [h]
    have e1 : 1 + maxLoop - 1 = maxLoop := by omega
    have e2 : 1 + maxLoop = maxLoop + 1 := by omega
    rw [e1, e2]

/-- Witness for C5: on the sample sequence 5, 7, 7 the first-consecutive-
repeat part of the claim applies at index 2, giving the value 7 after the
third poll. -/
theorem C5_stabilizing_detect_witness :
    multiDetect (fun a b : Nat => a == b) (fun n => [5, 7, 7].getD n 0) 10 = (7, 3) := by
  have h := C5_stabilizing_detect.1 Nat (fun a b => a == b) (fun n => [5, 7, 7].getD n 0)
    10 2 (by omega) (by omega) (by decide)
    (fun j hj1 hj2 => by
      have hj : j = 1 := by omega
      subst hj
      decide)
  simpa using h

/-- Claim C9.  One iteration of the rotation-convergence loop computes
`steps = (target - current + 4) mod 4` from the detected current rotation,
stops exactly when `steps = 0` and otherwise issues a rotate macro for
`steps` quarter turns before re-reading; in the concrete scenario of the
spec (current rotation 0 read from an exact pattern match, target rotation
2, faithful actuation) it issues a single macro of exactly 2 quarter turns
and then stops. -/
theorem C9_rotation_convergence :
    (∀ (target : Nat) (detect : Nat → Nat) (fuel issued : Nat),
      ((rotateConverge target detect (fuel + 1) issued).1 = [] ↔
        (target + 4 - detect issued % 4) % 4 = 0) ∧
      ((target + 4 - detect issued % 4) % 4 ≠ 0 →
        (rotateConverge target detect (fuel + 1) issued).1.headD 0 =
          (target + 4 - detect issued % 4) % 4)) ∧
    rotateConverge 2 (fun t => t % 4) 100 0 = ([2], true) := by
  refine ⟨?_, by decide⟩
  intro target detect fuel issued
  by_cases h : (target + 4 - detect issued % 4) % 4 = 0
  · simp only [rotateConverge, h, if_true]
    simp [h]
  · simp only [rotateConverge, h, if_false]
    simp [h]

/-- Witness for C9: with target rotation 1 and the preview already reading
rotation 1, the computed step count is 0 and the loop issues no macro. -/
theorem C9_rotation_convergence_witness :
    (rotateConverge 1 (fun _ => 1) 1 0).1 = [] :=
  ((C9_rotation_convergence.1 1 (fun _ => 1) 0 0).1).mpr (by decide)

/-- Claim C10.  When the hand detector is given an explicit cursor outside
0..3 (such as the -1 sentinel), the layout selection leaves the normal ROI
tables in place for all four slots, and the detection result — which
depends on the cursor only through the selected tables — is the same for
every out-of-range cursor value on the same frame. -/
theorem C10_out_of_range_cursor :
    ∀ (α β : Type) (normal focus : Fin 4 → α) (process : (Fin 4 → α) → β) (c d : Int),
      ¬(0 ≤ c ∧ c < 4) → ¬(0 ≤ d ∧ d < 4) →
      chooseRois normal focus c = normal ∧
      handsWithCursor process normal focus c = handsWithCursor process normal focus d := by
  intro α β n f pr c d hc hd
  have h1 : chooseRois n f c = n := by
    unfold chooseRois
    rw [if_neg hc]
  have h2 : chooseRois n f d = n := by
    unfold chooseRois
    rw [if_neg hd]
  refine ⟨h1, ?_⟩
  unfold handsWithCursor
  rw [h1, h2]

/-- Witness for C10: the -1 sentinel and the out-of-range value 7 both leave
the normal layout in place and produce the same detection result. -/
theorem C10_out_of_range_cursor_witness :
    chooseRois (fun _ : Fin 4 => (0 : Nat)) (fun _ => 1) (-1) = (fun _ => 0) ∧
    handsWithCursor (fun t => t 0) (fun _ : Fin 4 => (0 : Nat)) (fun _ => 1) (-1) =
      handsWithCursor (fun t => t 0) (fun _ : Fin 4 => (0 : Nat)) (fun _ => 1) 7 :=
  C10_out_of_range_cursor Nat Nat (fun _ => 0) (fun _ => 1) (fun t => t 0) (-1) 7
    (by decide) (by decide)

/-- Helper: a successful Card construction stores the given special cost. -/
theorem Card.init_spCost (g : Mat) (c : Nat) (k : Card)
    (h : Card.init g c = some k) : k.spCost = c := by
  unfold Card.init at h
  split at h
  · cases h
    rfl
  · cases h

/-- Claim C8.  Card equality is decided by the rotation-0 pattern only: any
two successfully constructed Cards whose rotation-0 patterns are equal
compare equal, regardless of their (faithfully stored) special costs. -/
theorem C8_card_eq_ignores_cost :
    ∀ (g1 g2 : Mat) (c1 c2 : Nat) (k1 k2 : Card),
      Card.init g1 c1 = some k1 → Card.init g2 c2 = some k2 →
      patternEq k1.pat0 k2.pat0 = true →
      cardEq k1 k2 = true ∧ k1.spCost = c1 ∧ k2.spCost = c2 := by
  intro g1 g2 c1 c2 k1 k2 h1 h2 hp
  exact ⟨hp, Card.init_spCost g1 c1 k1 h1, Card.init_spCost g2 c2 k2 h2⟩

/-- Witness for C8: two cards built from the same one-square grid with costs
1 and 5 compare equal while carrying different costs. -/
theorem C8_card_eq_ignores_cost_witness :
    cardEq cardCost1 cardCost5 = true ∧ cardCost1.spCost = 1 ∧ cardCost5.spCost = 5 :=
  C8_card_eq_ignores_cost [[Grid.MyInk]] [[Grid.MyInk]] 1 5 cardCost1 cardCost5
    (by decide) (by decide) (by decide)

/-- Helper: rows of a rectangular matrix have the common width. -/
theorem isRect_row_len {g : Mat} (h : isRect g = true) :
    ∀ r ∈ g, r.length = width g := by
  intro r hr
  have := (List.all_eq_true.mp h) r hr
  exact Nat.beq_eq_true_eq _ _ |>.mp this

/-- Helper: selectCols on a cons cell. -/
theorem selectCols_cons (b : Bool) (m : List Bool) (a : Grid) (r : List Grid) :
    selectCols (b :: m) (a :: r) =
      if b then a :: selectCols m r else selectCols m r := by
  by_cases hb : b <;> simp [selectCols, List.filterMap_cons, hb]

/-- Helper: the length of a mask selection depends only on the mask for rows
of equal length. -/
theorem selectCols_length_eq :
    ∀ (mask : List Bool) (r s : List Grid), r.length = s.length →
      (selectCols mask r).length = (selectCols mask s).length := by
  intro mask
  induction mask with
  | nil => intro r s _; rfl
  | cons b m ih =>
    intro r s hlen
    cases r with
    | nil =>
      cases s with
      | nil => rfl
      | cons c s2 => simp at hlen
    | cons a r2 =>
      cases s with
      | nil => simp at hlen
      | cons c s2 =>
        simp only [List.length_cons, Nat.add_right_cancel_iff] at hlen
        rw [selectCols_cons, selectCols_cons]
        by_cases hb : b <;> simp [hb, ih r2 s2 hlen]

/-- Helper: position `j` of a mask selection reads a fixed source position
`i` (the j-th true entry of the mask), the same for every row of the mask's
length. -/
theorem selectCols_getD_shared :
    ∀ (mask : List Bool) (j : Nat) (r : List Grid), mask.length = r.length →
      j < (selectCols mask r).length →
      ∃ i, i < mask.length ∧ mask.getD i false = true ∧
        ∀ (s : List Grid), s.length = mask.length →
          (selectCols mask s).getD j Grid.Empty = s.getD i Grid.Empty := by
  intro mask
  induction mask with
  | nil =>
    intro j r _ hj
    simp [selectCols] at hj
  | cons b m ih =>
    intro j r hlen hj
    cases r with
    | nil => simp at hlen
    | cons a r2 =>
      simp only [List.length_cons, Nat.add_right_cancel_iff] at hlen
      by_cases hb : b
      · subst hb
        rw [selectCols_cons, if_pos rfl] at hj
        cases j with
        | zero =>
          refine ⟨0, by simp, by simp, ?_⟩
          intro s hs
          cases s with
          | nil => simp at hs
          | cons c s2 => rw [selectCols_cons, if_pos rfl]; rfl
        | succ j2 =>
          simp only [List.length_cons, Nat.succ_lt_succ_iff] at hj
          obtain ⟨i2, hi1, hi2, hi3⟩ := ih j2 r2 hlen hj
          refine ⟨i2 + 1, by simpa using hi1, by simpa using hi2, ?_⟩
          intro s hs
          cases s with
          | nil => simp at hs
          | cons c s2 =>
            simp only [List.length_cons, Nat.add_right_cancel_iff] at hs
            rw [selectCols_cons, if_pos rfl]
            simpa using hi3 s2 hs
      · have hb2 : b = false := by simpa using hb
        subst hb2
        rw [selectCols_cons, if_neg (by simp)] at hj
        obtain ⟨i2, hi1, hi2, hi3⟩ := ih j r2 hlen hj
        refine ⟨i2 + 1, by simpa using hi1, by simpa using hi2, ?_⟩
        intro s hs
        cases s with
        | nil => simp at hs
        | cons c s2 =>
          simp only [List.length_cons, Nat.add_right_cancel_iff] at hs
          rw [selectCols_cons, if_neg (by simp)]
          simpa using hi3 s2 hs

/-- Helper: a source position kept by the mask appears in the selection. -/
theorem selectCols_mem_of_mask :
    ∀ (mask : List Bool) (i : Nat) (r : List Grid), mask.getD i false = true →
      i < r.length → r.getD i Grid.Empty ∈ selectCols mask r := by
  intro mask
  induction mask with
  | nil => intro i r h _; simp [List.getD] at h
  | cons b m ih =>
    intro i r hm hi
    cases r with
    | nil => simp at hi
    | cons a r2 =>
      cases i with
      | zero =>
        have hb : b = true := by simpa using hm
        subst hb
        rw [selectCols_cons, if_pos rfl]
        simp
      | succ i2 =>
        have hm2 : m.getD i2 false = true := by simpa using hm
        have hi2 : i2 < r2.length := by simpa using hi
        have hmem := ih i2 r2 hm2 hi2
        rw [selectCols_cons, List.getD_cons_succ]
        by_cases hb : b
        · rw [if_pos hb]
          exact List.mem_cons_of_mem a hmem
        · rw [if_neg hb]
          exact hmem

/-- Helper: an all-true mask of matching length selects the whole row. -/
theorem selectCols_all_true :
    ∀ (mask : List Bool) (r : List Grid), mask.length = r.length →
      (∀ i, i < mask.length → mask.getD i false = true) → selectCols mask r = r := by
  intro mask
  induction mask with
  | nil =>
    intro r hlen _
    cases r with
    | nil => rfl
    | cons a r2 => simp at hlen
  | cons b m ih =>
    intro r hlen hall
    cases r with
    | nil => simp at hlen
    | cons a r2 =>
      simp only [List.length_cons, Nat.add_right_cancel_iff] at hlen
      have hb : b = true := by simpa using hall 0 (by simp)
      subst hb
      rw [selectCols_cons, if_pos rfl]
      rw [ih r2 hlen (fun i hi => by simpa using hall (i + 1) (by simpa using hi))]

/-- Helper: the column mask has one entry per column. -/
theorem colMask_length (g : Mat) : (colMask g).length = width g := by
  simp [colMask]

/-- Helper: entry `j` of the column mask is the column-j keep flag. -/
theorem colMask_getD (g : Mat) (j : Nat) (hj : j < width g) :
    (colMask g).getD j false = colKeep g j := by
  have hj2 : j < (colMask g).length := by rwa [colMask_length]
  rw [List.getD_eq_getElem _ _ hj2]
  simp [colMask]

/-- Helper: a row with a non-Empty cell at position j certifies column j. -/
theorem colKeep_of_cell {g : Mat} {r : List Grid} {j : Nat} (hr : r ∈ g)
    (hc : r.getD j Grid.Empty ≠ Grid.Empty) : colKeep g j = true := by
  unfold colKeep
  rw [List.any_eq_true]
  exact ⟨r, hr, by simpa using hc⟩

/-- Helper: a kept row has a non-Empty cell at some in-range position. -/
theorem rowKeep_to_pos {r : List Grid} (h : rowKeep r = true) :
    ∃ j, j < r.length ∧ r.getD j Grid.Empty ≠ Grid.Empty := by
  unfold rowKeep at h
  rw [List.any_eq_true] at h
  obtain ⟨c, hc, hne⟩ := h
  obtain ⟨j, hj, rfl⟩ := List.mem_iff_getElem.mp hc
  exact ⟨j, hj, by rw [List.getD_eq_getElem _ _ hj]; simpa using hne⟩

/-- Helper: conversely, a non-Empty cell at any position makes the row kept. -/
theorem rowKeep_of_pos {r : List Grid} {j : Nat}
    (h : r.getD j Grid.Empty ≠ Grid.Empty) : rowKeep r = true := by
  have hj : j < r.length := by
    by_contra hge
    rw [List.getD_eq_default _ _ (by omega)] at h
    exact h rfl
  unfold rowKeep
  rw [List.any_eq_true]
  exact ⟨r.getD j Grid.Empty, by rw [List.getD_eq_getElem _ _ hj]; exact List.getElem_mem hj,
    by simpa using h⟩

/-- Helper: membership in the trimmed grid. -/
theorem trim_row_mem {g : Mat} {r : List Grid} :
    r ∈ trim g ↔ ∃ s, s ∈ g ∧ rowKeep s = true ∧ r = selectCols (colMask g) s := by
  unfold trim
  rw [List.mem_map]
  constructor
  · rintro ⟨s, hs, rfl⟩
    obtain ⟨hs1, hs2⟩ := List.mem_filter.mp hs
    exact ⟨s, hs1, hs2, rfl⟩
  · rintro ⟨s, hs1, hs2, rfl⟩
    exact ⟨s, List.mem_filter.mpr ⟨hs1, hs2⟩, rfl⟩

/-- Helper: every row of the trimmed grid keeps a non-Empty cell. -/
theorem trim_goodRows {g : Mat} (hg : isRect g = true) :
    ∀ r ∈ trim g, rowKeep r = true := by
  intro r hr
  obtain ⟨s, hs, hkeep, rfl⟩ := trim_row_mem.mp hr
  obtain ⟨j, hj, hne⟩ := rowKeep_to_pos hkeep
  have hw : s.length = width g := isRect_row_len hg s hs
  have hjw : j < width g := by omega
  have hcm : (colMask g).getD j false = true := by
    rw [colMask_getD g j hjw]
    exact colKeep_of_cell hs hne
  have hmem := selectCols_mem_of_mask (colMask g) j s hcm hj
  exact rowKeep_of_pos (r := selectCols (colMask g) s)
    (j := (selectCols (colMask g) s).indexOf (s.getD j Grid.Empty)) (by
      rw [List.getD_eq_getElem _ _ (List.indexOf_lt_length.mpr hmem)]
      rw [List.getElem_indexOf]
      exact hne)

/-- Helper: every column of the trimmed grid keeps a non-Empty cell. -/
theorem trim_goodCols {g : Mat} (hg : isRect g = true) :
    ∀ j, j < width (trim g) → colKeep (trim g) j = true := by
  intro j hj
  cases ht : trim g with
  | nil => rw [ht] at hj; simp [width] at hj
  | cons r0 rest =>
    rw [← ht]
    have hr0 : r0 ∈ trim g := by rw [ht]; exact List.mem_cons_self r0 rest
    obtain ⟨s0, hs0, hkeep0, hr0eq⟩ := trim_row_mem.mp hr0
    have hw0 : s0.length = width g := isRect_row_len hg s0 hs0
    have hml : (colMask g).length = s0.length := by rw [colMask_length]; omega
    have hjlen : j < (selectCols (colMask g) s0).length := by
      rw [ht] at hj
      simp only [width, List.headD_cons] at hj
      rw [hr0eq] at hj
      exact hj
    obtain ⟨i, hi1, hi2, hi3⟩ := selectCols_getD_shared (colMask g) j s0 hml hjlen
    have hiw : i < width g := by rw [colMask_length] at hi1; exact hi1
    have hck : colKeep g i = true := by rw [← colMask_getD g i hiw]; exact hi2
    unfold colKeep at hck
    rw [List.any_eq_true] at hck
    obtain ⟨s, hsg, hsne⟩ := hck
    have hsne2 : s.getD i Grid.Empty ≠ Grid.Empty := by simpa using hsne
    have hskeep : rowKeep s = true := rowKeep_of_pos hsne2
    have hsmem : selectCols (colMask g) s ∈ trim g :=
      trim_row_mem.mpr ⟨s, hsg, hskeep, rfl⟩
    have hsw : s.length = (colMask g).length := by
      rw [colMask_length]
      exact isRect_row_len hg s hsg
    unfold colKeep
    rw [List.any_eq_true]
    refine ⟨selectCols (colMask g) s, hsmem, ?_⟩
    rw [hi3 s hsw]
    simpa using hsne2

/-- Helper: the trimmed grid is rectangular. -/
theorem trim_isRect {g : Mat} (hg : isRect g = true) : isRect (trim g) = true := by
  unfold isRect
  rw [List.all_eq_true]
  intro r hr
  cases ht : trim g with
  | nil => rw [ht] at hr; simp at hr
  | cons r0 rest =>
    have hr0 : r0 ∈ trim g := by rw [ht]; exact List.mem_cons_self r0 rest
    obtain ⟨s0, hs0, _, hr0eq⟩ := trim_row_mem.mp hr0
    rw [ht] at hr
    have hrt : r ∈ trim g := by rw [ht]; exact hr
    obtain ⟨s, hs, _, hreq⟩ := trim_row_mem.mp hrt
    have hlen : r.length = r0.length := by
      rw [hreq, hr0eq]
      exact selectCols_length_eq (colMask g) s s0
        (by rw [isRect_row_len hg s hs, isRect_row_len hg s0 hs0])
    have hwidth : width (r0 :: rest) = r0.length := by simp [width]
    rw [Nat.beq_eq_true_eq]
    omega

/-- Helper: a rectangular grid whose rows and columns all hold a non-Empty
cell is left unchanged by trimming. -/
theorem trim_eq_self {h : Mat} (hrect : isRect h = true)
    (hrows : ∀ r ∈ h, rowKeep r = true)
    (hcols : ∀ j, j < width h → colKeep h j = true) : trim h = h := by
  unfold trim
  rw [List.filter_eq_self.mpr hrows]
  have : ∀ r ∈ h, selectCols (colMask h) r = r := by
    intro r hr
    refine selectCols_all_true (colMask h) r ?_ ?_
    · rw [colMask_length, isRect_row_len hrect r hr]
    · intro i hi
      rw [colMask_length] at hi
      rw [colMask_getD h i hi]
      exact hcols i hi
  calc h.map (selectCols (colMask h)) = h.map id := List.map_congr_left this
    _ = h := List.map_id h

/-- Helper: trimming is idempotent on rectangular grids. -/
theorem trim_trim {g : Mat} (hg : isRect g = true) : trim (trim g) = trim g :=
  trim_eq_self (trim_isRect hg) (trim_goodRows hg) (trim_goodCols hg)

/-- Counterexample for C3: on the grid with rows MyInk, Empty, MyInk the
stored grid drops the interior all-Empty row, so it is strictly smaller
than the minimal bounding box of the non-empty cells (which spans all
three rows and keeps the Empty cell between them). -/
theorem C3_bounding_box_fails :
    Pattern.init [[Grid.MyInk], [Grid.Empty], [Grid.MyInk]] =
      some { grid := [[Grid.MyInk], [Grid.MyInk]],
             squares := [Grid.MyInk, Grid.MyInk],
             offsets := [(0, 0), (1, 0)], size := 2 } ∧
    specBoundingBox [[Grid.MyInk], [Grid.Empty], [Grid.MyInk]] =
      [[Grid.MyInk], [Grid.Empty], [Grid.MyInk]] ∧
    ([[Grid.MyInk], [Grid.MyInk]] : Mat) ≠
      specBoundingBox [[Grid.MyInk], [Grid.Empty], [Grid.MyInk]] := by
  decide

/-- Claim C3 (amended).  For every rectangular CellState grid the stored
(trimmed) grid has no fully-empty row and no fully-empty column anywhere —
in particular none at the borders; it is the input with every all-empty
row and column deleted, which is smaller than the minimal bounding box
whenever an interior row or column is all-empty. -/
theorem C3_trim_no_empty_rows_cols (g : Mat) (hg : isRect g = true) :
    (∀ r ∈ trim g, rowKeep r = true) ∧
    (∀ j, j < width (trim g) → colKeep (trim g) j = true) :=
  ⟨trim_goodRows hg, trim_goodCols hg⟩

/-- Witness for C3: a concrete 2x2 grid with no all-empty row or column is
its own trimmed grid, and the amended claim applies to its first row and
first column. -/
theorem C3_trim_no_empty_rows_cols_witness :
    rowKeep [Grid.Empty, Grid.MyInk] = true ∧
    colKeep (trim [[Grid.Empty, Grid.MyInk], [Grid.Wall, Grid.Empty]]) 0 = true := by
  refine ⟨?_, ?_⟩
  · exact (C3_trim_no_empty_rows_cols [[Grid.Empty, Grid.MyInk], [Grid.Wall, Grid.Empty]]
      (by decide)).1 [Grid.Empty, Grid.MyInk] (by decide)
  · exact (C3_trim_no_empty_rows_cols [[Grid.Empty, Grid.MyInk], [Grid.Wall, Grid.Empty]]
      (by decide)).2 0 (by decide)

/-- Helper: a member cell that is non-Empty makes the row kept. -/
theorem rowKeep_of_mem {r : List Grid} {c : Grid} (hc : c ∈ r) (hne : c ≠ Grid.Empty) :
    rowKeep r = true := by
  unfold rowKeep
  rw [List.any_eq_true]
  exact ⟨c, hc, by simpa using hne⟩

/-- Helper: the head default of a list is its getD at 0. -/
theorem headD_eq_getD {α : Type} (l : List α) (d : α) : l.headD d = l.getD 0 d := by
  cases l <;> rfl

/-- Helper: a positive width forces a nonempty matrix. -/
theorem width_pos_ne_nil {g : Mat} (h : 0 < width g) : g ≠ [] := by
  intro h0
  rw [h0] at h
  simp [width] at h

/-- Helper: a column has one entry per row. -/
theorem colOf_length (g : Mat) (j : Nat) : (colOf g j).length = g.length := by
  simp [colOf]

/-- Helper: entry `k` of column `j` is cell (k, j). -/
theorem colOf_getD (g : Mat) (j k : Nat) :
    (colOf g j).getD k Grid.Empty = (g.getD k []).getD j Grid.Empty := by
  unfold colOf
  rw [List.getD_eq_getElem?_getD, List.getElem?_map, List.getD_eq_getElem?_getD g]
  cases g[k]? <;> rfl

/-- Helper: the cell of a member row at position `j` appears in column `j`. -/
theorem mem_colOf {g : Mat} {r : List Grid} (hr : r ∈ g) (j : Nat) :
    r.getD j Grid.Empty ∈ colOf g j :=
  List.mem_map.mpr ⟨r, hr, rfl⟩

/-- Helper: the rotation has one row per column. -/
theorem rot90_length (g : Mat) : (rot90 g).length = width g := by
  simp [rot90]

/-- Helper: row `i` of the rotation is column `width g - 1 - i`. -/
theorem rot90_row (g : Mat) (i : Nat) (hi : i < width g) :
    (rot90 g).getD i [] = colOf g (width g - 1 - i) := by
  unfold rot90
  rw [List.getD_eq_getElem?_getD, List.getElem?_map,
    List.getElem?_reverse (by simpa using hi), List.length_range,
    List.getElem?_range (by omega)]
  rfl

/-- Helper: every column of `g` is a row of the rotation. -/
theorem mem_rot90 {g : Mat} {j : Nat} (hj : j < width g) : colOf g j ∈ rot90 g := by
  unfold rot90
  exact List.mem_map.mpr ⟨j, List.mem_reverse.mpr (List.mem_range.mpr hj), rfl⟩

/-- Helper: every row of the rotation is a column of `g`. -/
theorem rot90_row_mem {g : Mat} {r : List Grid} (hr : r ∈ rot90 g) :
    ∃ j, j < width g ∧ r = colOf g j := by
  unfold rot90 at hr
  obtain ⟨j, hj, rfl⟩ := List.mem_map.mp hr
  exact ⟨j, List.mem_range.mp (List.mem_reverse.mp hj), rfl⟩

/-- Helper: the rotation of a matrix of positive width has the original row
count as its width. -/
theorem rot90_width {g : Mat} (h : 0 < width g) : width (rot90 g) = g.length := by
  rw [width, headD_eq_getD, rot90_row g 0 h, colOf_length]

/-- Helper: rotations are rectangular. -/
theorem rot90_isRect (g : Mat) : isRect (rot90 g) = true := by
  unfold isRect
  rw [List.all_eq_true]
  intro r hr
  obtain ⟨j, hj, rfl⟩ := rot90_row_mem hr
  rw [Nat.beq_eq_true_eq, colOf_length, rot90_width (by omega)]

/-- Helper: reading a row list through `List.range` reproduces the row. -/
theorem mapRange_getD :
    ∀ (n : Nat) (r : List Grid), r.length = n →
      (List.range n).map (fun j => r.getD j Grid.Empty) = r := by
  intro n
  induction n with
  | zero =>
    intro r h
    rw [List.length_eq_zero.mp h]
    rfl
  | succ m ih =>
    intro r h
    cases r with
    | nil => simp at h
    | cons a r2 =>
      simp only [List.length_cons, Nat.add_right_cancel_iff] at h
      rw [List.range_succ_eq_map, List.map_cons, List.map_map]
      have hfun : ∀ j ∈ List.range m,
          ((fun j => (a :: r2).getD j Grid.Empty) ∘ Nat.succ) j =
            (fun j => r2.getD j Grid.Empty) j := by
        intro j _
        simp [Function.comp_apply, List.getD_cons_succ]
      rw [List.map_congr_left hfun, ih r2 h]
      rfl

/-- Helper: reading a row list through the reversed range reverses the row. -/
theorem mapRangeRev_getD (n : Nat) (r : List Grid) (h : r.length = n) :
    (List.range n).reverse.map (fun j => r.getD j Grid.Empty) = r.reverse := by
  rw [List.map_reverse, mapRange_getD n r h]

/-- Helper: row reads of a reversed row list. -/
theorem getD_reverse_row (l : Mat) (i : Nat) (h : i < l.length) :
    l.reverse.getD i [] = l.getD (l.length - 1 - i) [] := by
  rw [List.getD_eq_getElem?_getD, List.getD_eq_getElem?_getD, List.getElem?_reverse h]

/-- Helper: row reads of a row-reversed matrix. -/
theorem getD_map_reverse (g : Mat) (k : Nat) :
    (g.map List.reverse).getD k [] = (g.getD k []).reverse := by
  rw [List.getD_eq_getElem?_getD, List.getD_eq_getElem?_getD g, List.getElem?_map]
  cases g[k]? <;> rfl

/-- Helper: two counterclockwise quarter-turns reverse the rows and their
order (the 180-degree rotation), on rectangular matrices of positive
width. -/
theorem rot90_rot90 {g : Mat} (hg : isRect g = true) (hw : 0 < width g) :
    rot90 (rot90 g) = (g.map List.reverse).reverse := by
  have hgne : g ≠ [] := width_pos_ne_nil hw
  have hm : 0 < g.length := List.length_pos.mpr hgne
  have hw2 : width (rot90 g) = g.length := rot90_width hw
  have hlen : (rot90 (rot90 g)).length = g.length := by rw [rot90_length, hw2]
  have hlen2 : ((g.map List.reverse).reverse).length = g.length := by simp
  refine List.ext_getElem (by omega) ?_
  intro i h1 h2
  rw [← List.getD_eq_getElem _ [] h1, ← List.getD_eq_getElem _ [] h2]
  have hi : i < g.length := by omega
  rw [rot90_row (rot90 g) i (by omega), hw2]
  have hkm : g.length - 1 - i < g.length := by omega
  rw [getD_reverse_row (g.map List.reverse) i (by simpa using hi), List.length_map,
    getD_map_reverse g (g.length - 1 - i)]
  unfold colOf rot90
  rw [List.map_map]
  have hrw : ∀ j ∈ (List.range (width g)).reverse,
      ((fun r => r.getD (g.length - 1 - i) Grid.Empty) ∘ colOf g) j =
        (fun j => (g.getD (g.length - 1 - i) []).getD j Grid.Empty) j := by
    intro j _
    simp only [Function.comp_apply]
    exact colOf_getD g j (g.length - 1 - i)
  rw [List.map_congr_left hrw]
  refine mapRangeRev_getD (width g) (g.getD (g.length - 1 - i) []) ?_
  refine isRect_row_len hg _ ?_
  rw [List.getD_eq_getElem g [] hkm]
  exact List.getElem_mem hkm

/-- Helper: two row-and-order reversals cancel. -/
theorem rev_rev_rows (g : Mat) :
    (((g.map List.reverse).reverse).map List.reverse).reverse = g := by
  rw [List.map_reverse, List.reverse_reverse, List.map_map]
  have hfun : ∀ r ∈ g, (List.reverse ∘ List.reverse) r = id r := by
    intro r _
    simp
  rw [List.map_congr_left hfun, List.map_id]

/-- Helper: a nonempty matrix all of whose rows have length `w` is
rectangular of width `w`. -/
theorem isRect_of_rows {l : Mat} {w : Nat} (hne : l ≠ [])
    (h : ∀ r ∈ l, r.length = w) : isRect l = true ∧ width l = w := by
  have hhead : l.headD [] ∈ l := by
    cases l with
    | nil => exact absurd rfl hne
    | cons a t => exact List.mem_cons_self a t
  have hw : width l = w := h _ hhead
  refine ⟨?_, hw⟩
  unfold isRect
  rw [List.all_eq_true]
  intro r hr
  rw [Nat.beq_eq_true_eq, hw]
  exact h r hr

/-- Helper: four counterclockwise quarter-turns are the identity on
rectangular matrices of positive width. -/
theorem rot90_four {g : Mat} (hg : isRect g = true) (hw : 0 < width g) :
    rot90 (rot90 (rot90 (rot90 g))) = g := by
  have hgne : g ≠ [] := width_pos_ne_nil hw
  have hm : 0 < g.length := List.length_pos.mpr hgne
  have h1 : rot90 (rot90 g) = (g.map List.reverse).reverse := rot90_rot90 hg hw
  rw [h1]
  have hne2 : (g.map List.reverse).reverse ≠ [] := by
    simpa using hgne
  have hrows2 : ∀ r ∈ (g.map List.reverse).reverse, r.length = width g := by
    intro r hr
    rw [List.mem_reverse, List.mem_map] at hr
    obtain ⟨s, hs, rfl⟩ := hr
    rw [List.length_reverse]
    exact isRect_row_len hg s hs
  obtain ⟨hrect2, hw2⟩ := isRect_of_rows hne2 hrows2
  rw [rot90_rot90 hrect2 (by omega), rev_rev_rows]

/-- Helper: nonemptiness of argwhere states the existence of a matching
cell. -/
theorem argwhere_ne_nil_iff (g : Mat) (p : Grid → Bool) :
    argwhere g p ≠ [] ↔ ∃ r ∈ g, ∃ c ∈ r, p c = true := by
  unfold argwhere
  rw [Ne, List.flatMap_eq_nil_iff]
  push_neg
  constructor
  · rintro ⟨i, hi, hne⟩
    rw [List.mem_range] at hi
    rw [Ne, List.filterMap_eq_nil_iff] at hne
    push_neg at hne
    obtain ⟨j, hj, hne2⟩ := hne
    rw [List.mem_range] at hj
    by_cases hp : p ((g.getD i []).getD j Grid.Empty) = true
    · refine ⟨g.getD i [], ?_, (g.getD i []).getD j Grid.Empty, ?_, hp⟩
      · rw [List.getD_eq_getElem g [] hi]
        exact List.getElem_mem hi
      · rw [List.getD_eq_getElem _ _ hj]
        exact List.getElem_mem hj
    · rw [if_neg hp] at hne2
      exact absurd rfl hne2
  · rintro ⟨r, hr, c, hc, hp⟩
    obtain ⟨i, hi, rfl⟩ := List.mem_iff_getElem.mp hr
    obtain ⟨j, hj, rfl⟩ := List.mem_iff_getElem.mp hc
    refine ⟨i, List.mem_range.mpr hi, ?_⟩
    rw [Ne, List.filterMap_eq_nil_iff]
    push_neg
    refine ⟨j, ?_, ?_⟩
    · rw [List.mem_range, List.getD_eq_getElem g [] hi]
      exact hj
    · rw [List.getD_eq_getElem g [] hi, List.getD_eq_getElem _ _ hj, if_pos hp]
      simp

/-- Helper: an ink square survives rotation. -/
theorem ink_transport_rot90 {g : Mat} (hg : isRect g = true)
    (h : argwhere g isInk ≠ []) : argwhere (rot90 g) isInk ≠ [] := by
  rw [argwhere_ne_nil_iff] at h ⊢
  obtain ⟨r, hr, c, hc, hp⟩ := h
  obtain ⟨j, hj, rfl⟩ := List.mem_iff_getElem.mp hc
  have hjw : j < width g := by
    rw [← isRect_row_len hg r hr]
    exact hj
  refine ⟨colOf g j, mem_rot90 hjw, r[j], ?_, hp⟩
  rw [← List.getD_eq_getElem r Grid.Empty hj]
  exact mem_colOf hr j

/-- Helper: a matrix holding an ink square is nonempty with positive width. -/
theorem ink_width_pos {g : Mat} (hg : isRect g = true)
    (h : argwhere g isInk ≠ []) : 0 < width g ∧ g ≠ [] := by
  rw [argwhere_ne_nil_iff] at h
  obtain ⟨r, hr, c, hc, _⟩ := h
  have hrne : r ≠ [] := by
    rintro rfl
    simp at hc
  have hrlen : 0 < r.length := List.length_pos.mpr hrne
  have hwl := isRect_row_len hg r hr
  refine ⟨by omega, ?_⟩
  rintro rfl
  simp at hr

/-- Helper: columns of the rotation of a column-covered matrix are covered. -/
theorem rot90_goodRows {g : Mat} (hcols : ∀ j, j < width g → colKeep g j = true) :
    ∀ r ∈ rot90 g, rowKeep r = true := by
  intro r hr
  obtain ⟨j, hj, rfl⟩ := rot90_row_mem hr
  have hck := hcols j hj
  unfold colKeep at hck
  rw [List.any_eq_true] at hck
  obtain ⟨s, hs, hsne⟩ := hck
  exact rowKeep_of_mem (mem_colOf hs j) (by simpa using hsne)

/-- Helper: rows of a row-covered matrix cover the rotation's columns. -/
theorem rot90_goodCols {g : Mat} (hg : isRect g = true) (hw : 0 < width g)
    (hrows : ∀ r ∈ g, rowKeep r = true) :
    ∀ j, j < width (rot90 g) → colKeep (rot90 g) j = true := by
  intro j hj
  rw [rot90_width hw] at hj
  have hsg : g.getD j [] ∈ g := by
    rw [List.getD_eq_getElem g [] hj]
    exact List.getElem_mem hj
  obtain ⟨i, hi, hne⟩ := rowKeep_to_pos (hrows _ hsg)
  have hiw : i < width g := by
    rw [← isRect_row_len hg _ hsg]
    exact hi
  unfold colKeep
  rw [List.any_eq_true]
  refine ⟨colOf g i, mem_rot90 hiw, ?_⟩
  rw [colOf_getD g i j]
  simpa using hne

/-- Helper: a successful Pattern construction stores the trimmed grid and
certifies an ink square in it. -/
theorem Pattern.init_elim {g : Mat} {p : Pattern} (h : Pattern.init g = some p) :
    p.grid = trim g ∧ argwhere (trim g) isInk ≠ [] := by
  unfold Pattern.init at h
  cases harg : argwhere (trim g) isInk with
  | nil =>
    rw [harg] at h
    cases h
  | cons q rest =>
    rw [harg] at h
    cases h
    exact ⟨rfl, by simp⟩

/-- Helper: on a self-trimmed grid with an ink square, Pattern construction
succeeds and stores that grid. -/
theorem Pattern.init_intro {h : Mat} (ht : trim h = h)
    (hne : argwhere h isInk ≠ []) :
    ∃ p, Pattern.init h = some p ∧ p.grid = h := by
  unfold Pattern.init
  rw [ht]
  cases harg : argwhere h isInk with
  | nil => exact absurd harg hne
  | cons q rest => exact ⟨_, rfl, rfl⟩

/-- Helper: Pattern construction depends on the input only through its
trimmed grid. -/
theorem Pattern.init_congr {g1 g2 : Mat} (h : trim g1 = trim g2) :
    Pattern.init g1 = Pattern.init g2 := by
  unfold Pattern.init
  rw [h]

/-- Helper: a rectangular, self-trimmed grid with an ink square keeps all
three properties under rotation. -/
theorem rotate_step {h : Mat} (hrect : isRect h = true) (htrim : trim h = h)
    (hink : argwhere h isInk ≠ []) :
    isRect (rot90 h) = true ∧ trim (rot90 h) = rot90 h ∧
      argwhere (rot90 h) isInk ≠ [] := by
  obtain ⟨hw, hne⟩ := ink_width_pos hrect hink
  have hrows : ∀ r ∈ h, rowKeep r = true := by
    intro r hr
    exact trim_goodRows hrect r (by rwa [htrim])
  have hcols : ∀ j, j < width h → colKeep h j = true := by
    intro j hj
    have hc := trim_goodCols hrect j (by rwa [htrim])
    rwa [htrim] at hc
  refine ⟨rot90_isRect h, ?_, ink_transport_rot90 hrect hink⟩
  exact trim_eq_self (rot90_isRect h) (rot90_goodRows hcols)
    (rot90_goodCols hrect hw hrows)

/-- Claim C4.  Rotating any successfully constructed Pattern by one
counterclockwise quarter turn four times in succession reproduces a
Pattern equal to the original under the Pattern equality that compares
offsets and squares. -/
theorem C4_rotate_four_identity (g : Mat) (p : Pattern) (hg : isRect g = true)
    (hp : Pattern.init g = some p) :
    optPatternEq ((((p.rotate 1).bind (fun q => q.rotate 1)).bind
      (fun q => q.rotate 1)).bind (fun q => q.rotate 1)) p = true := by
  obtain ⟨hpg, hne⟩ := Pattern.init_elim hp
  have h0rect : isRect p.grid = true := by
    rw [hpg]
    exact trim_isRect hg
  have h0trim : trim p.grid = p.grid := by
    rw [hpg]
    exact trim_trim hg
  have h0ink : argwhere p.grid isInk ≠ [] := by
    rw [hpg]
    exact hne
  have h0w : 0 < width p.grid := (ink_width_pos h0rect h0ink).1
  obtain ⟨h1rect, h1trim, h1ink⟩ := rotate_step h0rect h0trim h0ink
  obtain ⟨h2rect, h2trim, h2ink⟩ := rotate_step h1rect h1trim h1ink
  obtain ⟨h3rect, h3trim, h3ink⟩ := rotate_step h2rect h2trim h2ink
  obtain ⟨p1, hp1, hp1g⟩ := Pattern.init_intro h1trim h1ink
  obtain ⟨p2, hp2, hp2g⟩ := Pattern.init_intro h2trim h2ink
  obtain ⟨p3, hp3, hp3g⟩ := Pattern.init_intro h3trim h3ink
  have hrot : ∀ q : Pattern, q.rotate 1 = Pattern.init (rot90 q.grid) := fun q => rfl
  rw [hrot p, hp1, Option.some_bind, hrot p1, hp1g, hp2, Option.some_bind,
    hrot p2, hp2g, hp3, Option.some_bind, hrot p3, hp3g]
  have hfour : Pattern.init (rot90 (rot90 (rot90 (rot90 p.grid)))) = some p := by
    rw [rot90_four h0rect h0w]
    have hcongr : trim p.grid = trim g := by
      rw [h0trim, hpg]
    rw [Pattern.init_congr hcongr]
    exact hp
  rw [hfour]
  simp [optPatternEq, patternEq]

/-- Witness for C4: the claim applied to the concrete 3-square L-shaped
grid and its pattern. -/
theorem C4_rotate_four_identity_witness :
    optPatternEq ((((lShapePattern.rotate 1).bind (fun q => q.rotate 1)).bind
      (fun q => q.rotate 1)).bind (fun q => q.rotate 1)) lShapePattern = true :=
  C4_rotate_four_identity lShapeGrid lShapePattern (by decide) (by decide)

/-- Helper: a masked assignment reads as an if on the mask entry. -/
theorem assignMask_getD (cells : List Grid) (mask : List Bool) (v : Grid) (i : Nat)
    (hc : i < cells.length) (hm : i < mask.length) :
    (assignMask cells mask v).getD i Grid.Empty =
      if mask.getD i false then v else cells.getD i Grid.Empty := by
  have hl : i < (assignMask cells mask v).length := by
    simp only [assignMask, List.length_zipWith]
    omega
  rw [List.getD_eq_getElem _ _ hl, List.getD_eq_getElem _ _ hm,
    List.getD_eq_getElem _ _ hc]
  simp [assignMask, List.getElem_zipWith]

/-- Helper: a masked assignment preserves length when the mask matches. -/
theorem assignMask_length (cells : List Grid) (mask : List Bool) (v : Grid)
    (h : mask.length = cells.length) :
    (assignMask cells mask v).length = cells.length := by
  simp only [assignMask, List.length_zipWith]
  omega

/-- Helper: the band mask has one entry per ROI. -/
theorem bandMask_length (rois : List (List Pixel)) (b : Band) :
    (bandMask rois b).length = rois.length := by
  simp [bandMask]

/-- Helper: entry `i` of the band mask is the threshold test of ROI `i`. -/
theorem bandMask_getD (rois : List (List Pixel)) (b : Band) (i : Nat)
    (hi : i < rois.length) :
    (bandMask rois b).getD i false =
      decide (gridPixelFrac < matchFrac (rois.getD i []) b) := by
  have hi2 : i < (bandMask rois b).length := by
    rw [bandMask_length]
    exact hi
  rw [List.getD_eq_getElem _ _ hi2, List.getD_eq_getElem _ _ hi]
  simp [bandMask]

/-- Helper: reading the all-Empty initial cell list gives Empty. -/
theorem replicate_empty_getD (n i : Nat) :
    (List.replicate n Grid.Empty).getD i Grid.Empty = Grid.Empty := by
  by_cases h : i < n
  · rw [List.getD_eq_getElem _ _ (by simpa using h)]
    simp
  · rw [List.getD_eq_default _ _ (by simpa using h)]

/-- Helper: band match fractions of the mixed ROI: only the lighter special
band and the darker ink band exceed the 0.3 threshold. -/
theorem mixedRoi_fracs :
    ¬ gridPixelFrac < matchFrac mixedRoi myInkLighter ∧
    gridPixelFrac < matchFrac mixedRoi mySpecialLighter ∧
    gridPixelFrac < matchFrac mixedRoi myInkDarker ∧
    ¬ gridPixelFrac < matchFrac mixedRoi mySpecialDarker := by
  have c1 : mixedRoi.countP (inBand myInkLighter) = 0 := by decide
  have c2 : mixedRoi.countP (inBand mySpecialLighter) = 80 := by decide
  have c3 : mixedRoi.countP (inBand myInkDarker) = 80 := by decide
  have c4 : mixedRoi.countP (inBand mySpecialDarker) = 0 := by decide
  unfold gridPixelFrac matchFrac
  rw [c1, c2, c3, c4]
  norm_num

/-- Counterexample for C2: on a ROI where the lighter special band and the
darker ink band both exceed the 0.3 threshold, the cell is classified
MyInk, not MySpecial — the later darker-ink assignment overwrites the
earlier special classification, so MySpecial does not take precedence. -/
theorem C2_special_precedence_fails :
    handsClassify [mixedRoi] = [Grid.MyInk] ∧
    gridPixelFrac < matchFrac mixedRoi mySpecialLighter ∧
    gridPixelFrac < matchFrac mixedRoi myInkDarker ∧
    Grid.MyInk ≠ Grid.MySpecial := by
  obtain ⟨h1, h2, h3, h4⟩ := mixedRoi_fracs
  refine ⟨?_, h2, h3, by decide⟩
  simp only [handsClassify, bandMask, List.map, List.length_cons, List.length_nil,
    List.replicate]
  rw [decide_eq_false h1, decide_eq_true h2, decide_eq_true h3, decide_eq_false h4]
  rfl

/-- Helper: the last-match classification is Empty exactly when no band
exceeds the threshold. -/
theorem lastBandClass_empty_iff (roi : List Pixel) :
    lastBandClass roi = Grid.Empty ↔
      ¬(gridPixelFrac < matchFrac roi myInkLighter ∨
        gridPixelFrac < matchFrac roi mySpecialLighter ∨
        gridPixelFrac < matchFrac roi myInkDarker ∨
        gridPixelFrac < matchFrac roi mySpecialDarker) := by
  unfold lastBandClass
  by_cases h4 : gridPixelFrac < matchFrac roi mySpecialDarker <;>
    by_cases h3 : gridPixelFrac < matchFrac roi myInkDarker <;>
    by_cases h2 : gridPixelFrac < matchFrac roi mySpecialLighter <;>
    by_cases h1 : gridPixelFrac < matchFrac roi myInkLighter <;>
    simp [h1, h2, h3, h4]

/-- Claim C2 (amended).  A cell is classified MyInk or MySpecial exactly
when its match fraction exceeds the 0.3 threshold under at least one of
the four bands, and unmatched cells are Empty; but when several bands
exceed the threshold, the classification is decided by the last matching
assignment in the order lighter-ink, lighter-special, darker-ink,
darker-special — so MySpecial takes precedence only within that order
(a darker-ink match overrides a lighter-special match). -/
theorem C2_band_classification_amended :
    ∀ (rois : List (List Pixel)) (i : Nat), i < rois.length →
      (handsClassify rois).getD i Grid.Empty = lastBandClass (rois.getD i []) ∧
      ((handsClassify rois).getD i Grid.Empty ≠ Grid.Empty ↔
        (gridPixelFrac < matchFrac (rois.getD i []) myInkLighter ∨
         gridPixelFrac < matchFrac (rois.getD i []) mySpecialLighter ∨
         gridPixelFrac < matchFrac (rois.getD i []) myInkDarker ∨
         gridPixelFrac < matchFrac (rois.getD i []) mySpecialDarker)) := by
  intro rois i hi
  have l0 : (List.replicate rois.length Grid.Empty).length = rois.length := by simp
  have l1 := assignMask_length (List.replicate rois.length Grid.Empty)
    (bandMask rois myInkLighter) Grid.MyInk (by rw [bandMask_length, l0])
  have l2 := assignMask_length _ (bandMask rois mySpecialLighter) Grid.MySpecial
    (by rw [bandMask_length, l1, l0])
  have l3 := assignMask_length _ (bandMask rois myInkDarker) Grid.MyInk
    (by rw [bandMask_length, l2, l1, l0])
  have hval : (handsClassify rois).getD i Grid.Empty = lastBandClass (rois.getD i []) := by
    unfold handsClassify
    rw [assignMask_getD _ _ _ i (by omega) (by rw [bandMask_length]; exact hi),
      assignMask_getD _ _ _ i (by omega) (by rw [bandMask_length]; exact hi),
      assignMask_getD _ _ _ i (by omega) (by rw [bandMask_length]; exact hi),
      assignMask_getD _ _ _ i (by omega) (by rw [bandMask_length]; exact hi),
      replicate_empty_getD,
      bandMask_getD rois mySpecialDarker i hi, bandMask_getD rois myInkDarker i hi,
      bandMask_getD rois mySpecialLighter i hi, bandMask_getD rois myInkLighter i hi]
    unfold lastBandClass
    by_cases h4 : gridPixelFrac < matchFrac (rois.getD i []) mySpecialDarker <;>
      by_cases h3 : gridPixelFrac < matchFrac (rois.getD i []) myInkDarker <;>
      by_cases h2 : gridPixelFrac < matchFrac (rois.getD i []) mySpecialLighter <;>
      by_cases h1 : gridPixelFrac < matchFrac (rois.getD i []) myInkLighter <;>
      simp [h1, h2, h3, h4]
  refine ⟨hval, ?_⟩
  rw [hval, Ne, lastBandClass_empty_iff]
  exact not_not

/-- Witness for C2 (amended): the all-lighter-ink ROI is classified through
the last-match rule, which labels it MyInk. -/
theorem C2_band_classification_amended_witness :
    (handsClassify [inkRoi]).getD 0 Grid.Empty = lastBandClass inkRoi ∧
    lastBandClass inkRoi = Grid.MyInk := by
  have c1 : inkRoi.countP (inBand myInkLighter) = 196 := by decide
  have c2 : inkRoi.countP (inBand mySpecialLighter) = 0 := by decide
  have c3 : inkRoi.countP (inBand myInkDarker) = 0 := by decide
  have c4 : inkRoi.countP (inBand mySpecialDarker) = 0 := by decide
  have hfr : gridPixelFrac < matchFrac inkRoi myInkLighter ∧
      ¬ gridPixelFrac < matchFrac inkRoi mySpecialLighter ∧
      ¬ gridPixelFrac < matchFrac inkRoi myInkDarker ∧
      ¬ gridPixelFrac < matchFrac inkRoi mySpecialDarker := by
    unfold gridPixelFrac matchFrac
    rw [c1, c2, c3, c4]
    norm_num
  obtain ⟨h1, h2, h3, h4⟩ := hfr
  refine ⟨(C2_band_classification_amended [inkRoi] 0 (by simp)).1, ?_⟩
  unfold lastBandClass
  rw [if_neg h4, if_neg h3, if_neg h2, if_pos h1]

/-- Claim C6.  For every stage grid and either player, a special cell is in
the fiery split exactly when it is one of that player's special cells and
every one of its in-bounds 8-neighbours is non-Empty (out-of-bounds
neighbour positions are excluded from the test), it is in the unfiery
split exactly when it is a special cell failing that test, and the two
splits therefore partition the player's special cells. -/
theorem C6_fiery_partition :
    ∀ (g : Mat) (q : Int × Int),
      (q ∈ (splitSp g (mySp g)).1 ↔ q ∈ mySp g ∧ isFiery g q = true) ∧
      (q ∈ (splitSp g (mySp g)).2 ↔ q ∈ mySp g ∧ ¬ isFiery g q = true) ∧
      (q ∈ (splitSp g (hisSp g)).1 ↔ q ∈ hisSp g ∧ isFiery g q = true) ∧
      (q ∈ (splitSp g (hisSp g)).2 ↔ q ∈ hisSp g ∧ ¬ isFiery g q = true) ∧
      (isFiery g q = true ↔
        ∀ o ∈ nbOffsets, inBounds g (q.1 + o.1, q.2 + o.2) = true →
          cellAt g (q.1 + o.1, q.2 + o.2) ≠ Grid.Empty) := by
  intro g q
  refine ⟨?_, ?_, ?_, ?_, ?_⟩
  · simp [splitSp, List.mem_filter]
  · simp [splitSp, List.mem_filter]
  · simp [splitSp, List.mem_filter]
  · simp [splitSp, List.mem_filter]
  · unfold isFiery withinGrid
    constructor
    · intro hall o ho hb
      rw [List.all_eq_true] at hall
      have hm := hall (q.1 + o.1, q.2 + o.2)
        (List.mem_filter.mpr ⟨List.mem_map.mpr ⟨o, ho, rfl⟩, hb⟩)
      simpa using hm
    · intro hfor
      rw [List.all_eq_true]
      intro x hx
      obtain ⟨hxm, hxb⟩ := List.mem_filter.mp hx
      obtain ⟨o, ho, rfl⟩ := List.mem_map.mp hxm
      simpa using hfor o ho hxb

/-- Witness for C6: on the concrete 2x2 stage the special cell (0, 0) has
all in-bounds neighbours inked and lands in the fiery split. -/
theorem C6_fiery_partition_witness :
    ((0 : Int), (0 : Int)) ∈ (splitSp fieryStage (mySp fieryStage)).1 :=
  ((C6_fiery_partition fieryStage (0, 0)).1).mpr ⟨by decide, by decide⟩

/-- Counterexample for C7: the 9x1 trimmed pattern exceeds 8 in its height,
so the claim requires a warning, but `np.minimum(*shape) > 8` (card.py
line 18) is false there — the code warns only when BOTH dimensions exceed
8. -/
theorem C7_warn_single_dimension_fails :
    8 < (trim nineTallGrid).length ∧ ¬ 8 < width (trim nineTallGrid) ∧
    patternWarn nineTallGrid = false := by
  decide

/-- Claim C7 (amended).  Pattern construction emits its non-fatal warning
exactly when the trimmed bounding box exceeds 8 in BOTH dimensions (the
minimum of height and width exceeds 8, per `np.minimum(*shape) > 8`), and
in every case processing continues with the full untruncated trimmed grid
(no exception as long as the pattern has an ink square). -/
theorem C7_warn_amended :
    ∀ g : Mat,
      (patternWarn g = true ↔ 8 < (trim g).length ∧ 8 < width (trim g)) ∧
      (argwhere (trim g) isInk ≠ [] →
        (Pattern.init g).map Pattern.grid = some (trim g)) := by
  intro g
  constructor
  · simp only [patternWarn, decide_eq_true_eq]
    exact lt_min_iff
  · intro hne
    unfold Pattern.init
    cases harg : argwhere (trim g) isInk with
    | nil => exact absurd harg hne
    | cons i0 rest => rfl

/-- Witness for C7 (amended): the 9x9 all-ink grid trips the warning (both
dimensions exceed 8) and construction still stores the untruncated grid. -/
theorem C7_warn_amended_witness :
    patternWarn bigInkGrid = true ∧
    (Pattern.init bigInkGrid).map Pattern.grid = some (trim bigInkGrid) := by
  refine ⟨?_, ?_⟩
  · exact (C7_warn_amended bigInkGrid).1.mpr ⟨by decide, by decide⟩
  · exact (C7_warn_amended bigInkGrid).2 (by decide)

end AutoTableTurf
